import Mathlib

/-!
Verification development for the mercari-build-training item/category
persistence layer and content-addressed image store.

The definitions below are shallow embeddings of the Go source:
- `go/app/infra.go`: the SQLite-backed item repository (`Insert`,
  `GetItemById`, `SearchItemsByKeyword`, joins over `items`/`categories`),
- `go/app/server.go`: the HTTP-facing image blob store (`storeImage`,
  `buildImagePath`, `GetImage`, `AddItem`),
- `go/db/items.sql`: the schema (`categories.name TEXT NOT NULL UNIQUE`,
  `AUTOINCREMENT` surrogate ids).

Machine integers are modelled as `Nat` with explicit `% 2 ^ 32` where
overflow matters (SHA-256).  Byte sequences are `List Nat` with values in
`[0, 256)`.  Fallible operations return explicit error values.  Paths are
`String`s over the separator '/' (the deployment platform of the Dockerfile;
`filepath.ToSlash` is the identity there).
-/

namespace Mercari

/-! ### SHA-256 (embedding of Go `crypto/sha256`, FIPS 180-4)

`storeImage` derives the blob filename from `sha256.Sum256(image)` printed
with `fmt.Sprintf("%x.jpg", hash)`. -/

/-- Truncation to a 32-bit word. -/
def w32 (x : Nat) : Nat := x % 4294967296

/-- Right-rotation of a 32-bit word by `n` bits. -/
def rotr32 (n x : Nat) : Nat := w32 ((x >>> n) + (x % 2 ^ n) * 2 ^ (32 - n))

def smallSigma0 (x : Nat) : Nat := (rotr32 7 x) ^^^ (rotr32 18 x) ^^^ (x >>> 3)

def smallSigma1 (x : Nat) : Nat := (rotr32 17 x) ^^^ (rotr32 19 x) ^^^ (x >>> 10)

def bigSigma0 (x : Nat) : Nat := (rotr32 2 x) ^^^ (rotr32 13 x) ^^^ (rotr32 22 x)

def bigSigma1 (x : Nat) : Nat := (rotr32 6 x) ^^^ (rotr32 11 x) ^^^ (rotr32 25 x)

/-- `Ch(x, y, z)` of FIPS 180-4; `NOT x` is `x XOR 0xffffffff` on words. -/
def sha256Ch (x y z : Nat) : Nat := (x &&& y) ^^^ ((x ^^^ 4294967295) &&& z)

def sha256Maj (x y z : Nat) : Nat := (x &&& y) ^^^ (x &&& z) ^^^ (y &&& z)

/-- The eight 32-bit words of a SHA-256 hash state / digest. -/
structure Words8 where
  a : Nat
  b : Nat
  c : Nat
  d : Nat
  e : Nat
  f : Nat
  g : Nat
  h : Nat
deriving Repr, DecidableEq

/-- The initial hash value of FIPS 180-4 section 5.3.3, in decimal. -/
def sha256H0 : Words8 :=
  ⟨1779033703, 3144134277, 1013904242, 2773480762,
   1359893119, 2600822924, 528734635, 1541459225⟩

/-- The 64 round constants of FIPS 180-4 section 4.2.2, in decimal. -/
def sha256K : List Nat :=
  [1116352408, 1899447441, 3049323471, 3921009573, 961987163,
   1508970993, 2453635748, 2870763221, 3624381080, 310598401,
   607225278, 1426881987, 1925078388, 2162078206, 2614888103,
   3248222580, 3835390401, 4022224774, 264347078, 604807628,
   770255983, 1249150122, 1555081692, 1996064986, 2554220882,
   2821834349, 2952996808, 3210313671, 3336571891, 3584528711,
   113926993, 338241895, 666307205, 773529912, 1294757372,
   1396182291, 1695183700, 1986661051, 2177026350, 2456956037,
   2730485921, 2820302411, 3259730800, 3345764771, 3516065817,
   3600352804, 4094571909, 275423344, 430227734, 506948616,
   659060556, 883997877, 958139571, 1322822218, 1537002063,
   1747873779, 1955562222, 2024104815, 2227730452, 2361852424,
   2428436474, 2756734187, 3204031479, 3329325298]

/-- Big-endian packing of a 64-byte block into sixteen 32-bit words. -/
def bytesToWords : List Nat → List Nat
  | b0 :: b1 :: b2 :: b3 :: rest =>
      (b0 * 16777216 + b1 * 65536 + b2 * 256 + b3) :: bytesToWords rest
  | _ => []

/-- Extends the 16-word block to the 64-word message schedule; called with
fuel 48, appending `W[t] = σ1 W[t-2] + W[t-7] + σ0 W[t-15] + W[t-16]`. -/
def buildSchedule (ws : List Nat) : Nat → List Nat
  | 0 => ws
  | fuel + 1 =>
      let i := ws.length
      buildSchedule
        (ws ++ [w32 (smallSigma1 (ws.getD (i - 2) 0) + ws.getD (i - 7) 0 +
                     smallSigma0 (ws.getD (i - 15) 0) + ws.getD (i - 16) 0)])
        fuel

/-- One round of the SHA-256 compression function. -/
def sha256Round (st : Words8) (kw : Nat × Nat) : Words8 :=
  let t1 := w32 (st.h + bigSigma1 st.e + sha256Ch st.e st.f st.g + kw.1 + kw.2)
  let t2 := w32 (bigSigma0 st.a + sha256Maj st.a st.b st.c)
  ⟨w32 (t1 + t2), st.a, st.b, st.c, w32 (st.d + t1), st.e, st.f, st.g⟩

/-- Compression of a single 64-byte block into the running hash state. -/
def compressBlock (H : Words8) (block : List Nat) : Words8 :=
  let ws := buildSchedule (bytesToWords block) 48
  let st := (sha256K.zip ws).foldl sha256Round H
  ⟨w32 (H.a + st.a), w32 (H.b + st.b), w32 (H.c + st.c), w32 (H.d + st.d),
   w32 (H.e + st.e), w32 (H.f + st.f), w32 (H.g + st.g), w32 (H.h + st.h)⟩

/-- Big-endian 8-byte encoding of the message bit length. -/
def lenBytes (n : Nat) : List Nat :=
  [n / 2 ^ 56 % 256, n / 2 ^ 48 % 256, n / 2 ^ 40 % 256, n / 2 ^ 32 % 256,
   n / 2 ^ 24 % 256, n / 2 ^ 16 % 256, n / 2 ^ 8 % 256, n % 256]

/-- SHA-256 padding: append 0x80, zeros to 56 mod 64, then the bit length. -/
def padMessage (msg : List Nat) : List Nat :=
  msg ++ 128 :: List.replicate ((119 - msg.length % 64) % 64) 0 ++
    lenBytes (msg.length * 8)

/-- Splits the padded message into 64-byte blocks. -/
def toBlocks : List Nat → List (List Nat)
  | [] => []
  | b :: rest => ((b :: rest).take 64) :: toBlocks ((b :: rest).drop 64)
termination_by l => l.length
decreasing_by simp; omega

/-- SHA-256 of a byte sequence (each byte in `[0, 256)`). -/
def sha256 (msg : List Nat) : Words8 :=
  (toBlocks (padMessage msg)).foldl compressBlock sha256H0

/-- Big-endian bytes of a 32-bit word. -/
def wordBytes (w : Nat) : List Nat :=
  [w / 16777216 % 256, w / 65536 % 256, w / 256 % 256, w % 256]

/-- The 32 digest bytes of a final hash state. -/
def digestBytes (H : Words8) : List Nat :=
  wordBytes H.a ++ wordBytes H.b ++ wordBytes H.c ++ wordBytes H.d ++
  wordBytes H.e ++ wordBytes H.f ++ wordBytes H.g ++ wordBytes H.h

def hexDigit : Nat → Char
  | 0 => '0' | 1 => '1' | 2 => '2' | 3 => '3' | 4 => '4'
  | 5 => '5' | 6 => '6' | 7 => '7' | 8 => '8' | 9 => '9'
  | 10 => 'a' | 11 => 'b' | 12 => 'c' | 13 => 'd' | 14 => 'e'
  | _ => 'f'

/-- Lowercase hex characters of a byte sequence (Go `fmt.Sprintf("%x", _)`). -/
def bytesToHexChars : List Nat → List Char
  | [] => []
  | b :: rest => hexDigit (b / 16) :: hexDigit (b % 16) :: bytesToHexChars rest

/-- Lowercase hex string of a digest, as produced by `%x` on `[32]byte`. -/
def hexOfDigest (H : Words8) : String :=
  ⟨bytesToHexChars (digestBytes H)⟩

/-! ### Paths (embedding of Go `path/filepath` for separator '/')

`storeImage` and `buildImagePath` use `filepath.Join`, `filepath.Clean`,
`filepath.Rel` and `filepath.ToSlash`.  On the deployment platform the
separator is '/', so `ToSlash` is the identity. -/

/-- Splitting a character list at '/' (the segments of `strings.Split`). -/
def splitSlashAux : List Char → List Char → List String
  | [], acc => [⟨acc.reverse⟩]
  | ch :: rest, acc =>
      if ch = '/' then ⟨acc.reverse⟩ :: splitSlashAux rest []
      else splitSlashAux rest (ch :: acc)

def splitOnSlash (s : String) : List String := splitSlashAux s.data []

/-- Go `strings.HasPrefix`. -/
def strStartsWith (s pre : String) : Bool := pre.data.isPrefixOf s.data

/-- Go `strings.HasSuffix`. -/
def strEndsWith (s suf : String) : Bool := suf.data.isSuffixOf s.data

/-- Go `strings.TrimPrefix`. -/
def trimPref (s pre : String) : String :=
  if strStartsWith s pre then ⟨s.data.drop pre.data.length⟩ else s

def intercalateSlash : List String → String
  | [] => ""
  | [s] => s
  | s :: rest => s ++ "/" ++ intercalateSlash rest

/-- The element processing of Go `filepath.Clean`: drop empty and "."
segments; ".." pops a previous segment, is dropped at the root of a rooted
path, and is kept at the front of a relative path. -/
def cleanSegs (rooted : Bool) : List String → List String → List String
  | acc, [] => acc.reverse
  | acc, seg :: rest =>
      if seg = "" ∨ seg = "." then cleanSegs rooted acc rest
      else if seg = ".." then
        match acc with
        | top :: accTail =>
            if top = ".." then cleanSegs rooted (".." :: acc) rest
            else cleanSegs rooted accTail rest
        | [] => if rooted then cleanSegs rooted [] rest
                else cleanSegs rooted [".."] rest
      else cleanSegs rooted (seg :: acc) rest

/-- Go `filepath.Clean` for separator '/'. -/
def goClean (path : String) : String :=
  if path = "" then "."
  else
    let rooted := strStartsWith path "/"
    let segs := cleanSegs rooted [] (splitOnSlash path)
    if segs = [] then (if rooted then "/" else ".")
    else (if rooted then "/" else "") ++ intercalateSlash segs

/-- Go `filepath.Join` on two elements: `Clean` of the non-empty elements
joined by '/'; all-empty input yields "". -/
def goJoin (a b : String) : String :=
  if a = "" then (if b = "" then "" else goClean b)
  else if b = "" then goClean a
  else goClean (a ++ "/" ++ b)

/-- Go `filepath.ToSlash`; the identity when the separator is '/'. -/
def filepathToSlash (s : String) : String := s

def commonPrefixLen : List String → List String → Nat
  | a :: as, b :: bs => if a = b then 1 + commonPrefixLen as bs else 0
  | _, _ => 0

/-- Go `filepath.Rel` for separator '/': the relative path from `base` to
`targ`, or `none` for the error cases (mixed absolute/relative, or a ".."
base element at the first difference). -/
def goRel (base targ : String) : Option String :=
  let b := goClean base
  let t := goClean targ
  if b = t then some "."
  else if strStartsWith b "/" ≠ strStartsWith t "/" then none
  else
    let bs := if b = "." then [] else (splitOnSlash b).filter (fun seg => seg ≠ "")
    let ts := (splitOnSlash t).filter (fun seg => seg ≠ "")
    let k := commonPrefixLen bs ts
    let rb := bs.drop k
    let rt := ts.drop k
    if rb.head? = some ".." then none
    else if rb = [] then some (intercalateSlash rt)
    else some (intercalateSlash (rb.map (fun _ => "..") ++ rt))

/-- Does the raw filename contain a ".." path segment? -/
def containsDotDotSegment (s : String) : Bool := (splitOnSlash s).contains ".."

/-! ### The image blob store (embedding of `server.go`)

The blob directory is modelled as an association list from file paths to
byte contents, in creation order. -/

abbrev FS : Type := List (String × List Nat)

/-- Go `os.Stat` succeeding on the path. -/
def statExists (fs : FS) (p : String) : Bool :=
  (fs : List (String × List Nat)).any (fun e => e.1 == p)

/-- Go `os.ReadFile`. -/
def readFile (fs : FS) (p : String) : Option (List Nat) :=
  ((fs : List (String × List Nat)).find? (fun e => e.1 == p)).map (fun e => e.2)

/-- Go `os.WriteFile`: truncate an existing file or create a new one. -/
def writeFile (fs : FS) (p : String) (b : List Nat) : FS :=
  if (fs : List (String × List Nat)).any (fun e => e.1 == p) then
    (fs : List (String × List Nat)).map (fun e => if e.1 == p then (p, b) else e)
  else (fs : List (String × List Nat)) ++ [(p, b)]

/-- How many files of the blob directory sit at path `p`. -/
def countPath (fs : FS) (p : String) : Nat :=
  ((fs : List (String × List Nat)).filter (fun e => e.1 == p)).length

/-- Embedding of `Handlers.storeImage` (`server.go`): hash the bytes, derive
`<hex>.jpg` under the image directory, short-circuit if the file exists,
otherwise write it.  Returns the file path and the resulting directory. -/
def storeImage (fs : FS) (imgDirPath : String) (image : List Nat) : String × FS :=
  let fileName := hexOfDigest (sha256 image) ++ ".jpg"
  let filePath := filepathToSlash (goJoin imgDirPath fileName)
  if statExists fs filePath then (filePath, fs)
  else (filePath, writeFile fs filePath image)

/-- Result of `Handlers.buildImagePath`: `invalid` for the two
`InvalidRequest`-style failures (escape from the root, bad suffix),
`notFound` for `errImageNotFound` (which carries the path), `ok` otherwise. -/
inductive BuildResult where
  | invalid (path : String)
  | notFound (path : String)
  | ok (path : String)
deriving Repr, DecidableEq

def BuildResult.isInvalid : BuildResult → Bool
  | .invalid _ => true
  | _ => false

def BuildResult.isNotFound : BuildResult → Bool
  | .notFound _ => true
  | _ => false

/-- Embedding of `Handlers.buildImagePath` (`server.go`): join the cleaned
client filename onto the image directory, reject when the relative path from
the directory fails or starts with "..", reject a suffix other than
".jpg"/".jpeg", then report whether the file exists. -/
def buildImagePath (fs : FS) (imgDirPath imageFileName : String) : BuildResult :=
  let imgPath := goJoin imgDirPath (goClean imageFileName)
  match goRel imgDirPath imgPath with
  | none => .invalid imgPath
  | some rel =>
      if strStartsWith rel ".." then .invalid imgPath
      else if !strEndsWith imgPath ".jpg" && !strEndsWith imgPath ".jpeg" then
        .invalid imgPath
      else if statExists fs imgPath then .ok imgPath
      else .notFound imgPath

/-- Does the cleaned join of `imgDirPath` and the filename escape the image
directory (the condition `err != nil || strings.HasPrefix(rel, "..")`)? -/
def escapesRoot (imgDirPath p : String) : Bool :=
  match goRel imgDirPath p with
  | none => true
  | some rel => strStartsWith rel ".."

def hasImageSuffix (p : String) : Bool :=
  strEndsWith p ".jpg" || strEndsWith p ".jpeg"

/-- Response of the `GET /images/{filename}` handler: an HTTP 400, or the
file served. -/
inductive ImageResponse where
  | badRequest (msg : String)
  | file (path : String)
deriving Repr, DecidableEq

/-- Embedding of `Handlers.GetImage` (`server.go`): an empty filename is a
bad request; a non-`errImageNotFound` failure of `buildImagePath` is a bad
request; a missing file is substituted by the default image. -/
def getImage (fs : FS) (imgDirPath fname : String) : ImageResponse :=
  if fname = "" then .badRequest "filename is required"
  else
    match buildImagePath fs imgDirPath fname with
    | .invalid p => .badRequest p
    | .notFound _ => .file (goJoin imgDirPath "default.jpg")
    | .ok p => .file p

/-! ### The catalog store (embedding of `infra.go` and `db/items.sql`)

The durable schema: `categories (id INTEGER PRIMARY KEY AUTOINCREMENT,
name TEXT NOT NULL UNIQUE)` and `items (id INTEGER PRIMARY KEY AUTOINCREMENT,
name TEXT NOT NULL, category_id INTEGER NOT NULL, image_name TEXT NOT NULL)`.
Rows are kept in storage (insertion) order; `AUTOINCREMENT` is modelled by a
monotone next-id counter per table, starting at 1. -/

structure Category where
  id : Nat
  name : String
deriving Repr, DecidableEq

structure ItemRow where
  id : Nat
  name : String
  categoryId : Nat
  imageName : String
deriving Repr, DecidableEq

structure DB where
  categories : List Category
  items : List ItemRow
  nextCategoryId : Nat
  nextItemId : Nat
deriving Repr, DecidableEq

def emptyDB : DB := ⟨[], [], 1, 1⟩

/-- The Go `Item` struct as surfaced by queries: the item joined with its
category name. -/
structure Item where
  id : Nat
  name : String
  category : String
  image : String
deriving Repr, DecidableEq

/-- Errors surfaced by the repository layer. -/
inductive DbErr where
  | noRows
  | itemNotFound
  | uniqueViolation (name : String)
  | persistence (msg : String)
deriving Repr, DecidableEq

/-- `SELECT id FROM categories WHERE name = ?` — exact (case-sensitive,
SQLite BINARY collation) name equality; `sql.ErrNoRows` is `none`. -/
def lookupCategory (db : DB) (name : String) : Option Nat :=
  (db.categories.find? (fun r => r.name == name)).map (fun r => r.id)

/-- `INSERT INTO categories (name) VALUES (?)` with the next AUTOINCREMENT
id.  The `UNIQUE` constraint holds at each call site below: the name was
just looked up and absent. -/
def addCategoryRow (db : DB) (name : String) : DB :=
  { db with categories := db.categories ++ [⟨db.nextCategoryId, name⟩],
            nextCategoryId := db.nextCategoryId + 1 }

/-- `INSERT INTO items (name, category_id, image_name) VALUES (?, ?, ?)`
with the next AUTOINCREMENT id. -/
def addItemRow (db : DB) (name : String) (categoryId : Nat) (image : String) : DB :=
  { db with items := db.items ++ [⟨db.nextItemId, name, categoryId, image⟩],
            nextItemId := db.nextItemId + 1 }

/-- Outcome of a repository call that runs inside a transaction: the durable
(committed) state after the call, and the returned error if any.  Error
paths return before `tx.Commit()`, so the deferred `tx.Rollback()` discards
the transaction and the durable state is the input state. -/
structure InsertOutcome where
  db : DB
  err : Option DbErr
deriving Repr, DecidableEq

/-- Embedding of `itemRepository.Insert` (`infra.go`): inside one
transaction, look the category up by name; on `ErrNoRows` insert it and
re-select its id; then insert the item row and commit.  `itemInsertFault`
injects a storage fault at the item-insert step (`tx.ExecContext` on
`items` failing); every error path rolls back. -/
def insertItem (db : DB) (name category image : String)
    (itemInsertFault : Bool) : InsertOutcome :=
  match lookupCategory db category with
  | some categoryID =>
      if itemInsertFault then ⟨db, some (.persistence "insert into items failed")⟩
      else ⟨addItemRow db name categoryID image, none⟩
  | none =>
      let pending := addCategoryRow db category
      match lookupCategory pending category with
      | none => ⟨db, some .noRows⟩
      | some categoryID =>
          if itemInsertFault then ⟨db, some (.persistence "insert into items failed")⟩
          else ⟨addItemRow pending name categoryID image, none⟩

/-- The category resolution of one joined row: `INNER JOIN categories ON
items.category_id = categories.id`, selecting `items.id, items.name,
categories.name AS category, items.image_name`. -/
def joinFun (cats : List Category) (r : ItemRow) : Option Item :=
  (cats.find? (fun c => c.id == r.categoryId)).map
    (fun c => ⟨r.id, r.name, c.name, r.imageName⟩)

/-- The rows of `items INNER JOIN categories ON items.category_id =
categories.id`, in items storage order, shaped as the queries of `GetAll`,
`GetItemById` and `SearchItemsByKeyword` select them. -/
def joinRows (db : DB) : List Item :=
  db.items.filterMap (joinFun db.categories)

/-- The whitespace of SQLite's `sqlite3Isspace`. -/
def isSpaceChar (c : Char) : Bool :=
  c = ' ' ∨ c = '\t' ∨ c = '\n' ∨ c = '\x0b' ∨ c = '\x0c' ∨ c = '\r'

def digitsToNat (ds : List Char) : Nat :=
  ds.foldl (fun acc c => acc * 10 + (c.toNat - 48)) 0

/-- Splits a leading run of decimal digits from the rest. -/
def takeDigits (cs : List Char) : List Char × List Char :=
  (cs.takeWhile (fun c => c.isDigit), cs.dropWhile (fun c => c.isDigit))

/-- The optional exponent of a numeric literal after `e`/`E`: an optional
sign and at least one digit; yields the signed exponent and the rest. -/
def parseExponentTail (cs : List Char) : Option (Int × List Char) :=
  let signed : Bool × List Char :=
    match cs with
    | '-' :: rest => (true, rest)
    | '+' :: rest => (false, rest)
    | _ => (false, cs)
  let ds := takeDigits signed.2
  if ds.1.isEmpty then none
  else if signed.1 then some (-(digitsToNat ds.1 : Int), ds.2)
  else some ((digitsToNat ds.1 : Int), ds.2)

def parseExponent (cs : List Char) : Option (Int × List Char) :=
  match cs with
  | 'e' :: rest => parseExponentTail rest
  | 'E' :: rest => parseExponentTail rest
  | _ => some (0, cs)

/-- `m * 10 ^ scale` when that value is an integer, `none` otherwise. -/
def intValue (m : Nat) (scale : Int) : Option Int :=
  match scale with
  | .ofNat k => some ((m * 10 ^ k : Nat) : Int)
  | .negSucc k =>
      if m % 10 ^ (k + 1) = 0 then some ((m / 10 ^ (k + 1) : Nat) : Int)
      else none

/-- SQLite NUMERIC-affinity coercion of a bound TEXT value compared against
an INTEGER id.  Well-formedness follows `sqlite3AtoF`: optional surrounding
whitespace, an optional sign, a mantissa of digits with an optional decimal
point (at least one digit overall), and an optional `e`/`E` exponent with
at least one digit.  `items.id = ?` then matches an integer id exactly when
the literal's numeric value is that integer, so the coercion yields `some k`
when the value is the integer `k`, and `none` both for ill-formed text
(which stays TEXT and is never equal to an INTEGER) and for literals with a
non-integer value such as "2.5" (equal to no integer id).  Literal values
are evaluated exactly here; SQLite evaluates them through IEEE doubles,
which differs only for mantissas beyond the double's precision or values
beyond its range. -/
def sqliteTextToInt (s : String) : Option Int :=
  let cs := s.data.dropWhile (fun c => isSpaceChar c)
  let signed : Bool × List Char :=
    match cs with
    | '-' :: rest => (true, rest)
    | '+' :: rest => (false, rest)
    | _ => (false, cs)
  let intPart := takeDigits signed.2
  let fracPart : List Char × List Char :=
    match intPart.2 with
    | '.' :: rest => takeDigits rest
    | _ => ([], intPart.2)
  if intPart.1.isEmpty ∧ fracPart.1.isEmpty then none
  else
    match parseExponent fracPart.2 with
    | none => none
    | some (e, rest) =>
        if !(rest.all (fun c => isSpaceChar c)) then none
        else
          match intValue (digitsToNat (intPart.1 ++ fracPart.1))
              (e - (fracPart.1.length : Int)) with
          | none => none
          | some v => some (if signed.1 then -v else v)

/-- `items.id = ?` with the id bound as a Go string. -/
def idMatches (idStr : String) (id : Nat) : Bool :=
  sqliteTextToInt idStr == some (id : Int)

/-- Embedding of `itemRepository.GetItemById` (`infra.go`): the join
filtered by `items.id = ?`, scanned with `QueryRow` (first row);
`sql.ErrNoRows` becomes `errItemNotFound`, any other storage fault
(injected as `fault`) is returned as-is. -/
def getItemById (db : DB) (idStr : String) (fault : Option String) :
    Except DbErr Item :=
  match fault with
  | some msg => .error (.persistence msg)
  | none =>
      match (joinRows db).find? (fun it => idMatches idStr it.id) with
      | some it => .ok it
      | none => .error .itemNotFound

/-! #### SQLite `LIKE` (default, no ESCAPE): '%' matches any sequence, '_'
any single character, and ASCII letters compare case-insensitively. -/

/-- The ASCII case folding of SQLite's default `LIKE`. -/
def likeFold (c : Char) : Char :=
  if 65 ≤ c.toNat ∧ c.toNat ≤ 90 then Char.ofNat (c.toNat + 32) else c

/-- Does `f` accept some suffix of the string (itself included)?  This is
the meaning of a '%' in front of the rest of the pattern: '%' consumes any
prefix of the text. -/
def anySuffix (f : List Char → Bool) : List Char → Bool
  | [] => f []
  | d :: s2 => f (d :: s2) || anySuffix f s2

/-- SQLite `LIKE` pattern matching over characters, by recursion on the
pattern. -/
def likeMatch : List Char → List Char → Bool
  | [] => fun s => s.isEmpty
  | c :: p =>
      if c = '%' then anySuffix (likeMatch p)
      else fun s =>
        match s with
        | [] => false
        | d :: s2 =>
            if c = '_' then likeMatch p s2
            else (likeFold c = likeFold d) && likeMatch p s2

/-- Embedding of `itemRepository.SearchItemsByKeyword` (`infra.go`): the
join filtered by `items.name LIKE '%' || keyword || '%'`, in storage
order; an empty result is an empty list, not an error. -/
def searchItemsByKeyword (db : DB) (keyword : String) : List Item :=
  (joinRows db).filter (fun it =>
    likeMatch ("%" ++ keyword ++ "%").data it.name.data)

/-- The keyword has none of the `LIKE` metacharacters. -/
def noWildcards (kw : String) : Bool :=
  kw.data.all (fun c => !(c == '%') && !(c == '_'))

/-- Case-folded occurrence of `kw` at the head of `s`. -/
def leadMatch : List Char → List Char → Bool
  | [], _ => true
  | _ :: _, [] => false
  | a :: as, b :: bs => (a = b) && leadMatch as bs

/-- Case-folded substring occurrence: `kw` occurs contiguously inside `s`. -/
def subMatch (kw s : List Char) : Bool :=
  leadMatch kw s ||
    match s with
    | [] => false
    | _ :: s2 => subMatch kw s2

/-- `kw` is contained in `s` as an ASCII-case-insensitive substring. -/
def containsCI (kw s : String) : Bool :=
  subMatch (kw.data.map likeFold) (s.data.map likeFold)

/-- Embedding of `itemRepository.Insert` when its category insert races a
concurrent winner: this transaction's category lookup reads its snapshot
`snap` (where the name is absent), while the winner has already committed
`cur`; the engine enforces `UNIQUE (categories.name)` against the winner's
committed rows, so the loser's `INSERT INTO categories` fails and `Insert`
returns that error (rolling back, so the durable state stays `cur`). -/
def insertRaced (snap cur : DB) (name category image : String) : InsertOutcome :=
  match lookupCategory snap category with
  | some categoryID => ⟨addItemRow cur name categoryID image, none⟩
  | none =>
      if cur.categories.any (fun r => r.name == category) then
        ⟨cur, some (.uniqueViolation category)⟩
      else
        let pending := addCategoryRow cur category
        match lookupCategory pending category with
        | none => ⟨cur, some .noRows⟩
        | some categoryID => ⟨addItemRow pending name categoryID image, none⟩

/-! ### The item-add flow (embedding of `Handlers.AddItem`, `server.go`) -/

structure AddResult where
  fs : FS
  db : DB
  err : Option String
deriving Repr, DecidableEq

/-- Embedding of `Handlers.AddItem`: validate name and category; store the
attached image bytes, or — when none were attached — read the default image
and store its bytes content-addressed; insert the item with the stored file
name, its leading "images/" trimmed. -/
def addItem (fs : FS) (db : DB) (imgDirPath : String)
    (name category : String) (image : List Nat) : AddResult :=
  if name = "" then ⟨fs, db, some "name is required"⟩
  else if category = "" then ⟨fs, db, some "category is required"⟩
  else
    let stored : Option (String × FS) :=
      if image.length > 0 then some (storeImage fs imgDirPath image)
      else
        match readFile fs (goJoin imgDirPath "default.jpg") with
        | none => none
        | some defaultImage => some (storeImage fs imgDirPath defaultImage)
    match stored with
    | none => ⟨fs, db, some "failed to read default image"⟩
    | some (fileName, fs2) =>
        let out := insertItem db name category (trimPref fileName "images/") false
        match out.err with
        | some _ => ⟨fs2, out.db, some "failed to store item"⟩
        | none => ⟨fs2, out.db, none⟩

/-- Well-formedness of the stored state, maintained by the schema:
AUTOINCREMENT ids are below the next counter and distinct, and category
names are unique. -/
def WF (db : DB) : Prop :=
  (db.categories.map (fun r => r.id)).Nodup ∧
  (db.categories.map (fun r => r.name)).Nodup ∧
  (∀ r ∈ db.categories, r.id < db.nextCategoryId) ∧
  (∀ r ∈ db.items, r.id < db.nextItemId)

/-- Running a sequence of submissions (name, category, image) through
`Insert`, starting from a given state. -/
def runInserts (db : DB) : List (String × String × String) → DB
  | [] => db
  | (n, c, i) :: rest => runInserts (insertItem db n c i false).db rest

/-- The catalog of the spec's search example, in storage order. -/
def exampleDB : DB :=
  ⟨[⟨1, "Fashion"⟩],
   [⟨1, "Blue Shirt", 1, "a.jpg"⟩, ⟨2, "Shirt", 1, "b.jpg"⟩, ⟨3, "Pants", 1, "c.jpg"⟩],
   2, 4⟩

/-! ## Theorems -/

theorem lookupCategory_none_iff (db : DB) (c : String) :
    lookupCategory db c = none ↔ ∀ r ∈ db.categories, r.name ≠ c := by
  unfold lookupCategory
  rw [Option.map_eq_none', List.find?_eq_none]
  constructor
  · intro h r hr
    have := h r hr
    simpa using this
  · intro h r hr
    simpa using h r hr

theorem lookupCategory_some_mem (db : DB) (c : String) (cid : Nat)
    (h : lookupCategory db c = some cid) :
    ∃ r ∈ db.categories, r.id = cid ∧ r.name = c := by
  unfold lookupCategory at h
  rcases Option.map_eq_some.mp h with ⟨r, hfind, hid⟩
  refine ⟨r, List.mem_of_find?_eq_some hfind, hid, ?_⟩
  have := List.find?_some hfind
  simpa using this

theorem find?_id_of_nodup (l : List Category) (r : Category)
    (hnd : (l.map (fun x => x.id)).Nodup) (hm : r ∈ l) :
    l.find? (fun x => x.id == r.id) = some r := by
  induction l with
  | nil => cases hm
  | cons a l ih =>
      rcases List.mem_cons.mp hm with rfl | hm2
      · simp [List.find?]
      · have hne : a.id ≠ r.id := by
          intro he
          have : r.id ∈ l.map (fun x => x.id) := List.mem_map_of_mem _ hm2
          rw [List.map_cons, List.nodup_cons] at hnd
          exact hnd.1 (he ▸ this)
        have hnd2 : (l.map (fun x => x.id)).Nodup := by
          rw [List.map_cons, List.nodup_cons] at hnd
          exact hnd.2
        rw [List.find?_cons_of_neg _ (by simpa using hne)]
        exact ih hnd2 hm2

theorem lookupCategory_addCategoryRow (db : DB) (c : String)
    (h : lookupCategory db c = none) :
    lookupCategory (addCategoryRow db c) c = some db.nextCategoryId := by
  have hf : db.categories.find? (fun r => r.name == c) = none := by
    unfold lookupCategory at h
    exact Option.map_eq_none.mp h
  unfold lookupCategory addCategoryRow
  simp [List.find?_append, hf, List.find?]

theorem insertItem_err_none (db : DB) (n c i : String) :
    (insertItem db n c i false).err = none := by
  cases h : lookupCategory db c with
  | some cid => simp [insertItem, h]
  | none => simp [insertItem, h, lookupCategory_addCategoryRow db c h]

theorem insertItem_reuse (db : DB) (n c i : String) (cid : Nat)
    (h : lookupCategory db c = some cid) :
    (insertItem db n c i false).db = addItemRow db n cid i := by
  simp [insertItem, h]

theorem insertItem_new (db : DB) (n c i : String)
    (h : lookupCategory db c = none) :
    (insertItem db n c i false).db
      = addItemRow (addCategoryRow db c) n db.nextCategoryId i := by
  simp [insertItem, h, lookupCategory_addCategoryRow db c h]

theorem insertItem_namesNodup (db : DB) (n c i : String) (f : Bool)
    (hnd : (db.categories.map (fun r => r.name)).Nodup) :
    ((insertItem db n c i f).db.categories.map (fun r => r.name)).Nodup := by
  cases h : lookupCategory db c with
  | some cid => cases f <;> simpa [insertItem, h, addItemRow] using hnd
  | none =>
      have habs := (lookupCategory_none_iff db c).mp h
      have hnew : ((addCategoryRow db c).categories.map (fun r => r.name)).Nodup := by
        unfold addCategoryRow
        simp only [List.map_append, List.map_cons, List.map_nil]
        rw [List.nodup_append]
        refine ⟨hnd, List.nodup_singleton c, ?_⟩
        intro x hx hx2
        rcases List.mem_map.mp hx with ⟨r, hr, rfl⟩
        have : r.name = c := by simpa using hx2
        exact habs r hr this
      cases f
      · simpa [insertItem, h, lookupCategory_addCategoryRow db c h, addItemRow]
          using hnew
      · simpa [insertItem, h, lookupCategory_addCategoryRow db c h] using hnd

theorem runInserts_namesNodup (db : DB)
    (hnd : (db.categories.map (fun r => r.name)).Nodup)
    (reqs : List (String × String × String)) :
    ((runInserts db reqs).categories.map (fun r => r.name)).Nodup := by
  induction reqs generalizing db with
  | nil => exact hnd
  | cons req rest ih =>
      exact ih _ (insertItem_namesNodup db req.1 req.2.1 req.2.2 false hnd)

/-- **C1.** `Insert(name, category, imageFilename)` executes the
category-lookup-or-create step and the item-insert step as one atomic unit:
in every execution in which the item insert fails, `Insert` returns an
error and the durable state after the call equals the state before it — in
particular a category row created during that execution is rolled back and
no orphan category is observable. -/
theorem insert_item_fault_atomic (db : DB) (n c i : String) :
    (insertItem db n c i true).err.isSome = true ∧
    (insertItem db n c i true).db = db := by
  cases h : lookupCategory db c with
  | some cid => simp [insertItem, h]
  | none => simp [insertItem, h, lookupCategory_addCategoryRow db c h]

/-- **C2.** Successful `Insert`s keep category names unique: starting from
name-unique categories, the state after an `Insert` is name-unique (hence
every sequence of `Insert`s from the empty store is, as the last conjunct
states); an `Insert` whose category name exactly equals an existing
category's name reuses that category's id and leaves the category rows
unchanged; only a previously-unseen name appends a (single) new category
row. -/
theorem insert_category_uniqueness (db : DB) (n c i : String)
    (hnd : (db.categories.map (fun r => r.name)).Nodup) :
    ((insertItem db n c i false).db.categories.map (fun r => r.name)).Nodup ∧
    (∀ cid, lookupCategory db c = some cid →
      (insertItem db n c i false).db.categories = db.categories ∧
      (insertItem db n c i false).db.items
        = db.items ++ [⟨db.nextItemId, n, cid, i⟩]) ∧
    (lookupCategory db c = none →
      (insertItem db n c i false).db.categories
        = db.categories ++ [(⟨db.nextCategoryId, c⟩ : Category)]) ∧
    (∀ reqs, ((runInserts emptyDB reqs).categories.map (fun r => r.name)).Nodup) := by
  refine ⟨insertItem_namesNodup db n c i false hnd, ?_, ?_, ?_⟩
  · intro cid h
    rw [insertItem_reuse db n c i cid h]
    exact ⟨rfl, rfl⟩
  · intro h
    rw [insertItem_new db n c i h]
    rfl
  · intro reqs
    exact runInserts_namesNodup emptyDB (by simp [emptyDB]) reqs

theorem joinFun_id (cats : List Category) (r : ItemRow) (it : Item)
    (h : joinFun cats r = some it) : it.id = r.id := by
  unfold joinFun at h
  rcases Option.map_eq_some'.mp h with ⟨cr, _, he⟩
  subst he
  rfl

theorem find?_join_old_none (cats : List Category) (items : List ItemRow)
    (idStr : String) (bound : Nat)
    (hlt : ∀ r ∈ items, r.id < bound)
    (hid : sqliteTextToInt idStr = some (bound : Int)) :
    (items.filterMap (joinFun cats)).find? (fun it => idMatches idStr it.id)
      = none := by
  rw [List.find?_eq_none]
  intro it hit
  rcases List.mem_filterMap.mp hit with ⟨r, hr, hjoin⟩
  have hidr := joinFun_id cats r it hjoin
  have hlt2 := hlt r hr
  simp only [idMatches, hid, hidr]
  simp only [beq_iff_eq, Option.some.injEq]
  intro he
  omega

theorem find?_cat_old_none (cats : List Category) (nid : Nat)
    (hlt : ∀ r ∈ cats, r.id < nid) :
    cats.find? (fun x => x.id == nid) = none := by
  rw [List.find?_eq_none]
  intro r hr
  have := hlt r hr
  simp only [beq_iff_eq]
  omega

/-- **C3.** For all valid submissions (non-empty name, category and image
filename) over a well-formed store, `Insert` succeeds and `GetById` on the
inserted item's id (any id string that coerces to the new AUTOINCREMENT id)
returns a record whose category name equals the submitted category name,
and whose name and image filename equal the submitted ones. -/
theorem insert_then_getItemById (db : DB) (n c i idStr : String)
    (h1 : n ≠ "") (h2 : c ≠ "") (h3 : i ≠ "")
    (hwf : WF db)
    (hid : sqliteTextToInt idStr = some (db.nextItemId : Int)) :
    (insertItem db n c i false).err = none ∧
    getItemById (insertItem db n c i false).db idStr none
      = .ok ⟨db.nextItemId, n, c, i⟩ := by
  obtain ⟨hndid, hndname, hcatlt, hitemlt⟩ := hwf
  refine ⟨insertItem_err_none db n c i, ?_⟩
  have hpnew : idMatches idStr db.nextItemId = true := by
    simp [idMatches, hid]
  cases h : lookupCategory db c with
  | some cid =>
      rw [insertItem_reuse db n c i cid h]
      rcases lookupCategory_some_mem db c cid h with ⟨r, hr, hrid, hrname⟩
      have hjoin : joinFun db.categories ⟨db.nextItemId, n, cid, i⟩
          = some ⟨db.nextItemId, n, c, i⟩ := by
        unfold joinFun
        have : db.categories.find? (fun x => x.id == cid) = some r := by
          rw [← hrid]
          exact find?_id_of_nodup db.categories r hndid hr
        rw [this]
        simp [hrname]
      have hrows : joinRows (addItemRow db n cid i)
          = db.items.filterMap (joinFun db.categories)
            ++ [⟨db.nextItemId, n, c, i⟩] := by
        unfold joinRows addItemRow
        rw [List.filterMap_append]
        congr 1
        simp [hjoin]
      have hold := find?_join_old_none db.categories db.items idStr
        db.nextItemId hitemlt hid
      simp [getItemById, hrows, List.find?_append, hold, List.find?, hpnew]
  | none =>
      rw [insertItem_new db n c i h]
      have hcatfind : (db.categories ++ [(⟨db.nextCategoryId, c⟩ : Category)]).find?
          (fun x => x.id == db.nextCategoryId) = some ⟨db.nextCategoryId, c⟩ := by
        rw [List.find?_append, find?_cat_old_none db.categories db.nextCategoryId hcatlt]
        simp [List.find?]
      have hjoin : joinFun (db.categories ++ [(⟨db.nextCategoryId, c⟩ : Category)])
          ⟨db.nextItemId, n, db.nextCategoryId, i⟩
          = some ⟨db.nextItemId, n, c, i⟩ := by
        unfold joinFun
        rw [hcatfind]
        rfl
      have hrows : joinRows (addItemRow (addCategoryRow db c) n db.nextCategoryId i)
          = db.items.filterMap (joinFun (db.categories ++ [(⟨db.nextCategoryId, c⟩ : Category)]))
            ++ [⟨db.nextItemId, n, c, i⟩] := by
        unfold joinRows addItemRow addCategoryRow
        rw [List.filterMap_append]
        congr 1
        simp [hjoin]
      have hold := find?_join_old_none (db.categories ++ [(⟨db.nextCategoryId, c⟩ : Category)])
        db.items idStr db.nextItemId hitemlt hid
      simp [getItemById, hrows, List.find?_append, hold, List.find?, hpnew]

theorem insert_then_getItemById_witness :
    (("Bike" : String) ≠ "" ∧ ("Sports" : String) ≠ "" ∧ ("f.jpg" : String) ≠ "" ∧
      WF emptyDB ∧ sqliteTextToInt "1" = some ((emptyDB.nextItemId : Nat) : Int)) ∧
    getItemById (insertItem emptyDB "Bike" "Sports" "f.jpg" false).db "1" none
      = .ok ⟨1, "Bike", "Sports", "f.jpg"⟩ := by
  refine ⟨⟨by decide, by decide, by decide,
    ⟨by decide, by decide, by decide, by decide⟩, by decide⟩, ?_⟩
  exact (insert_then_getItemById emptyDB "Bike" "Sports" "f.jpg" "1"
    (by decide) (by decide) (by decide)
    ⟨by decide, by decide, by decide, by decide⟩ (by decide)).2

theorem statExists_true_countPath (fs : FS) (p : String)
    (h : statExists fs p = true) : countPath fs p ≠ 0 := by
  unfold statExists at h
  rcases List.any_eq_true.mp h with ⟨e, he, hep⟩
  unfold countPath
  intro h0
  rw [List.length_eq_zero, List.filter_eq_nil_iff] at h0
  exact h0 e he hep

theorem writeFile_not_exists (fs : FS) (p : String) (b : List Nat)
    (h : statExists fs p = false) : writeFile fs p b = fs ++ [(p, b)] := by
  unfold statExists at h
  unfold writeFile
  rw [h]
  rfl

theorem statExists_append_self (fs : FS) (p : String) (b : List Nat) :
    statExists (fs ++ [(p, b)]) p = true := by
  unfold statExists
  simp

theorem countPath_zero_no_match (fs : FS) (p : String)
    (h : countPath fs p = 0) : ∀ e ∈ fs, ¬(e.1 == p) = true := by
  unfold countPath at h
  rw [List.length_eq_zero, List.filter_eq_nil_iff] at h
  exact h

theorem countPath_append (fs1 fs2 : FS) (p : String) :
    countPath (fs1 ++ fs2) p = countPath fs1 p + countPath fs2 p := by
  unfold countPath
  rw [List.filter_append, List.length_append]

/-- The returned file path of `storeImage` is the joined digest name in
both branches. -/
theorem storeImage_fst (fs : FS) (dir : String) (b : List Nat) :
    (storeImage fs dir b).1 = goJoin dir (hexOfDigest (sha256 b) ++ ".jpg") := by
  show (if statExists fs (filepathToSlash (goJoin dir (hexOfDigest (sha256 b) ++ ".jpg")))
      then (filepathToSlash (goJoin dir (hexOfDigest (sha256 b) ++ ".jpg")), fs)
      else (filepathToSlash (goJoin dir (hexOfDigest (sha256 b) ++ ".jpg")),
        writeFile fs (filepathToSlash (goJoin dir (hexOfDigest (sha256 b) ++ ".jpg"))) b)).1
    = goJoin dir (hexOfDigest (sha256 b) ++ ".jpg")
  by_cases h : statExists fs
      (filepathToSlash (goJoin dir (hexOfDigest (sha256 b) ++ ".jpg"))) = true
  · rw [if_pos h]
    rfl
  · rw [if_neg h]
    rfl

/-- **C4.** `Store(b)` is idempotent: both stores of the same bytes return
the same filename — the hex SHA-256 digest of the bytes with a ".jpg"
suffix, under the blob directory — the second call leaves the blob
directory untouched, and when the digest's file was absent the blob
directory afterwards holds exactly one file for it. -/
theorem storeImage_idempotent (fs : FS) (dir : String) (b : List Nat)
    (hb : b ≠ []) :
    (storeImage fs dir b).1 = goJoin dir (hexOfDigest (sha256 b) ++ ".jpg") ∧
    (storeImage (storeImage fs dir b).2 dir b).1 = (storeImage fs dir b).1 ∧
    (storeImage (storeImage fs dir b).2 dir b).2 = (storeImage fs dir b).2 ∧
    (countPath fs (goJoin dir (hexOfDigest (sha256 b) ++ ".jpg")) = 0 →
      countPath (storeImage (storeImage fs dir b).2 dir b).2
        (goJoin dir (hexOfDigest (sha256 b) ++ ".jpg")) = 1) := by
  cases hex : statExists fs (goJoin dir (hexOfDigest (sha256 b) ++ ".jpg")) with
  | true =>
      refine ⟨by simp [storeImage, filepathToSlash, hex], ?_, ?_, ?_⟩
      · simp [storeImage, filepathToSlash, hex]
      · simp [storeImage, filepathToSlash, hex]
      · intro h0
        exact absurd h0 (statExists_true_countPath fs _ hex)
  | false =>
      have hw := writeFile_not_exists fs
        (goJoin dir (hexOfDigest (sha256 b) ++ ".jpg")) b hex
      have hex2 := statExists_append_self fs
        (goJoin dir (hexOfDigest (sha256 b) ++ ".jpg")) b
      refine ⟨by simp [storeImage, filepathToSlash, hex], ?_, ?_, ?_⟩
      · simp [storeImage, filepathToSlash, hex, hw, hex2]
      · simp [storeImage, filepathToSlash, hex, hw, hex2]
      · intro h0
        simp [storeImage, filepathToSlash, hex, hw, hex2, countPath_append, h0,
          countPath]
        intro a b1 hmem
        have h3 := countPath_zero_no_match fs _ h0 (a, b1) hmem
        simpa using h3

theorem storeImage_idempotent_witness :
    (([0] : List Nat) ≠ []) ∧
    (storeImage (storeImage [] "images" [0]).2 "images" [0]).1
      = (storeImage [] "images" [0]).1 ∧
    (storeImage (storeImage [] "images" [0]).2 "images" [0]).2
      = (storeImage [] "images" [0]).2 := by
  refine ⟨by decide, ?_, ?_⟩
  · exact (storeImage_idempotent [] "images" [0] (by decide)).2.1
  · exact (storeImage_idempotent [] "images" [0] (by decide)).2.2.1

/-- Counterexample to C5 as stated: the filename "a/../b.jpg" contains a
".." segment, yet `buildImagePath` does not reject it with an invalid-path
error — the segment cancels during canonicalization, the cleaned path stays
inside the blob root, and the resolution proceeds to the existence check. -/
theorem buildImagePath_dotdot_counterexample :
    containsDotDotSegment "a/../b.jpg" = true ∧
    (buildImagePath [] "images" "a/../b.jpg").isInvalid = false ∧
    buildImagePath [] "images" "a/../b.jpg" = .notFound "images/b.jpg" :=
  ⟨by decide, by decide, by decide⟩

/-- **C5 (amended).** `Resolve` rejects with `InvalidRequest` every filename
whose canonicalized path escapes the blob root (its path relative to the
root fails or begins with ".."), regardless of suffix — though a filename
containing ".." segments that canonicalize back inside the root is not
rejected — and every accepted resolution both stays inside the root and
carries an accepted image suffix. -/
theorem buildImagePath_guards (fs : FS) (root name : String) :
    (escapesRoot root (goJoin root (goClean name)) = true →
      (buildImagePath fs root name).isInvalid = true) ∧
    ((buildImagePath fs root name).isInvalid = false →
      escapesRoot root (goJoin root (goClean name)) = false ∧
      hasImageSuffix (goJoin root (goClean name)) = true) := by
  cases hrel : goRel root (goJoin root (goClean name)) with
  | none =>
      constructor
      · intro _
        simp [buildImagePath, hrel, BuildResult.isInvalid]
      · intro hinv
        exfalso
        simp [buildImagePath, hrel, BuildResult.isInvalid] at hinv
  | some rel =>
      cases hdd : strStartsWith rel ".." with
      | true =>
          constructor
          · intro _
            simp [buildImagePath, hrel, hdd, BuildResult.isInvalid]
          · intro hinv
            exfalso
            simp [buildImagePath, hrel, hdd, BuildResult.isInvalid] at hinv
      | false =>
          constructor
          · intro hesc
            exfalso
            simp [escapesRoot, hrel, hdd] at hesc
          · intro hinv
            refine ⟨by simp [escapesRoot, hrel, hdd], ?_⟩
            cases hj : strEndsWith (goJoin root (goClean name)) ".jpg" with
            | true => simp [hasImageSuffix, hj]
            | false =>
                cases hj2 : strEndsWith (goJoin root (goClean name)) ".jpeg" with
                | true => simp [hasImageSuffix, hj, hj2]
                | false =>
                    exfalso
                    simp [buildImagePath, hrel, hdd, hj, hj2,
                      BuildResult.isInvalid] at hinv

theorem buildImagePath_guards_witness :
    escapesRoot "images" (goJoin "images" (goClean "../x.jpg")) = true ∧
    (buildImagePath [] "images" "../x.jpg").isInvalid = true := by
  refine ⟨by decide, ?_⟩
  exact (buildImagePath_guards [] "images" "../x.jpg").1 (by decide)

/-- **C6.** A filename of valid form (canonicalizes inside the blob root,
accepted suffix) whose backing file does not exist resolves to `NotFound`
carrying the resolved path, and the `GetImage` handler then serves the
default image instead of surfacing an error to the client. -/
theorem resolve_missing_defaults (fs : FS) (root fname : String)
    (hne : fname ≠ "") :
    (escapesRoot root (goJoin root (goClean fname)) = false →
      hasImageSuffix (goJoin root (goClean fname)) = true →
      statExists fs (goJoin root (goClean fname)) = false →
      buildImagePath fs root fname = .notFound (goJoin root (goClean fname))) ∧
    ((buildImagePath fs root fname).isNotFound = true →
      getImage fs root fname = .file (goJoin root "default.jpg")) := by
  constructor
  · intro hesc hsuf hstat
    cases hrel : goRel root (goJoin root (goClean fname)) with
    | none =>
        exfalso
        simp [escapesRoot, hrel] at hesc
    | some rel =>
        have hdd : strStartsWith rel ".." = false := by
          simpa [escapesRoot, hrel] using hesc
        have hsufc : (!strEndsWith (goJoin root (goClean fname)) ".jpg" &&
            !strEndsWith (goJoin root (goClean fname)) ".jpeg") = false := by
          cases h1 : strEndsWith (goJoin root (goClean fname)) ".jpg" <;>
            cases h2 : strEndsWith (goJoin root (goClean fname)) ".jpeg" <;>
            simp_all [hasImageSuffix]
        simp [buildImagePath, hrel, hdd, hsufc, hstat]
  · intro hnf
    unfold getImage
    rw [if_neg hne]
    cases hb : buildImagePath fs root fname with
    | invalid p =>
        exfalso
        simp [BuildResult.isNotFound, hb] at hnf
    | notFound p => rfl
    | ok p =>
        exfalso
        simp [BuildResult.isNotFound, hb] at hnf

theorem resolve_missing_defaults_witness :
    (("a.jpg" : String) ≠ "" ∧
      escapesRoot "images" (goJoin "images" (goClean "a.jpg")) = false ∧
      hasImageSuffix (goJoin "images" (goClean "a.jpg")) = true ∧
      statExists [] (goJoin "images" (goClean "a.jpg")) = false ∧
      (buildImagePath [] "images" "a.jpg").isNotFound = true) ∧
    buildImagePath [] "images" "a.jpg"
      = .notFound (goJoin "images" (goClean "a.jpg")) ∧
    getImage [] "images" "a.jpg" = .file (goJoin "images" "default.jpg") := by
  refine ⟨⟨by decide, by decide, by decide, by decide, by decide⟩, ?_, ?_⟩
  · exact (resolve_missing_defaults [] "images" "a.jpg" (by decide)).1
      (by decide) (by decide) (by decide)
  · exact (resolve_missing_defaults [] "images" "a.jpg" (by decide)).2 (by decide)

/-- Counterexample to C9 as stated: in the modelled race — the loser's
lookup reads a snapshot without "Sports" while the winner has committed it —
`Insert` does not re-resolve and complete successfully; it returns the
uniqueness-constraint violation. -/
theorem insertRaced_counterexample :
    (insertRaced emptyDB ⟨[⟨1, "Sports"⟩], [], 2, 1⟩ "Bike" "Sports" "x.jpg").err
      = some (.uniqueViolation "Sports") ∧
    (insertRaced emptyDB ⟨[⟨1, "Sports"⟩], [], 2, 1⟩ "Bike" "Sports" "x.jpg").db
      = ⟨[⟨1, "Sports"⟩], [], 2, 1⟩ :=
  ⟨by decide, by decide⟩

/-- **C9 (amended).** When two concurrent `Insert`s propose the same new
category name and the engine's uniqueness constraint rejects the loser's
category insert, the losing `Insert` propagates the constraint violation to
its caller (there is no re-resolution), its transaction rolls back, and the
committed state — in particular the single category row with that name
created by the winner — is unchanged. -/
theorem insertRaced_propagates (snap cur : DB) (n c i : String)
    (hsnap : lookupCategory snap c = none)
    (hwin : cur.categories.any (fun r => r.name == c) = true) :
    (insertRaced snap cur n c i).err = some (.uniqueViolation c) ∧
    (insertRaced snap cur n c i).db = cur := by
  simp [insertRaced, hsnap, hwin]

theorem insertRaced_propagates_witness :
    (lookupCategory emptyDB "Sports" = none ∧
      (⟨[⟨1, "Sports"⟩], [], 2, 1⟩ : DB).categories.any
        (fun r => r.name == "Sports") = true) ∧
    (insertRaced emptyDB ⟨[⟨1, "Sports"⟩], [], 2, 1⟩ "Ball" "Sports" "y.jpg").db
      = ⟨[⟨1, "Sports"⟩], [], 2, 1⟩ := by
  refine ⟨⟨by decide, by decide⟩, ?_⟩
  exact (insertRaced_propagates emptyDB ⟨[⟨1, "Sports"⟩], [], 2, 1⟩
    "Ball" "Sports" "y.jpg" (by decide) (by decide)).2

/-- **C8.** `GetById(id)`: an injected storage fault is surfaced as-is
(the `PersistenceError` of the spec); an id string whose NUMERIC-affinity
coercion yields no integer — any non-numeric string, which stays TEXT and
equals no INTEGER, as well as any numeric literal with a non-integer value
such as "2.5" — matches no row and yields `NotFound`; an id (also one
written as an integer-valued real literal such as "2.0" or "2e0") matched
by no item row yields `NotFound`; otherwise the first joined row matching
the id is returned. -/
theorem getItemById_spec (db : DB) (idStr msg : String) :
    getItemById db idStr (some msg) = .error (.persistence msg) ∧
    (sqliteTextToInt idStr = none →
      getItemById db idStr none = .error .itemNotFound) ∧
    ((∀ r ∈ db.items, idMatches idStr r.id = false) →
      getItemById db idStr none = .error .itemNotFound) ∧
    (∀ it, (joinRows db).find? (fun x => idMatches idStr x.id) = some it →
      getItemById db idStr none = .ok it) := by
  refine ⟨rfl, ?_, ?_, ?_⟩
  · intro hp
    have hn : (joinRows db).find? (fun x => idMatches idStr x.id) = none := by
      rw [List.find?_eq_none]
      intro it _
      simp [idMatches, hp]
    simp [getItemById, hn]
  · intro hall
    have hn : (joinRows db).find? (fun x => idMatches idStr x.id) = none := by
      rw [List.find?_eq_none]
      intro it hit
      rcases List.mem_filterMap.mp (by simpa [joinRows] using hit) with ⟨r, hr, hj⟩
      have hidr := joinFun_id db.categories r it hj
      rw [hidr, hall r hr]
      simp
    simp [getItemById, hn]
  · intro it hit
    simp [getItemById, hit]

theorem getItemById_spec_witness :
    (sqliteTextToInt "abc" = none ∧ sqliteTextToInt "2.5" = none ∧
      sqliteTextToInt "2.0" = some 2 ∧
      (joinRows exampleDB).find? (fun x => idMatches "2.0" x.id)
        = some ⟨2, "Shirt", "Fashion", "b.jpg"⟩) ∧
    getItemById exampleDB "abc" none = .error .itemNotFound ∧
    getItemById exampleDB "2.5" none = .error .itemNotFound ∧
    getItemById exampleDB "2.0" none = .ok ⟨2, "Shirt", "Fashion", "b.jpg"⟩ ∧
    getItemById exampleDB "2" (some "disk fault")
      = .error (.persistence "disk fault") := by
  refine ⟨⟨by decide, by decide, by decide, by decide⟩, ?_, ?_, ?_, ?_⟩
  · exact (getItemById_spec exampleDB "abc" "m").2.1 (by decide)
  · exact (getItemById_spec exampleDB "2.5" "m").2.1 (by decide)
  · exact (getItemById_spec exampleDB "2.0" "m").2.2.2
      ⟨2, "Shirt", "Fashion", "b.jpg"⟩ (by decide)
  · exact (getItemById_spec exampleDB "2" "disk fault").1

theorem likeMatch_pct (s : List Char) : likeMatch ['%'] s = true := by
  induction s with
  | nil => simp [likeMatch, anySuffix]
  | cons c s2 ih => simp [likeMatch, anySuffix] at ih ⊢; simp [ih]

theorem likeMatch_nowild_lead (kw : List Char)
    (hw : ∀ c ∈ kw, c ≠ '%' ∧ c ≠ '_') :
    ∀ s : List Char,
      likeMatch (kw ++ ['%']) s = leadMatch (kw.map likeFold) (s.map likeFold) := by
  induction kw with
  | nil =>
      intro s
      simp [likeMatch_pct, leadMatch]
  | cons c kw2 ih =>
      intro s
      have hc := hw c (List.mem_cons_self c kw2)
      have hw2 : ∀ x ∈ kw2, x ≠ '%' ∧ x ≠ '_' :=
        fun x hx => hw x (List.mem_cons_of_mem c hx)
      cases s with
      | nil => simp [likeMatch, leadMatch, hc.1]
      | cons d s2 =>
          simp [likeMatch, leadMatch, hc.1, hc.2, ih hw2 s2]

theorem likeMatch_nowild (kw : List Char)
    (hw : ∀ c ∈ kw, c ≠ '%' ∧ c ≠ '_') :
    ∀ s : List Char,
      likeMatch ('%' :: (kw ++ ['%'])) s
        = subMatch (kw.map likeFold) (s.map likeFold) := by
  intro s
  induction s with
  | nil =>
      show anySuffix (likeMatch (kw ++ ['%'])) [] = _
      rw [subMatch.eq_def]
      simp [anySuffix, likeMatch_nowild_lead kw hw]
  | cons d s2 ih =>
      show anySuffix (likeMatch (kw ++ ['%'])) (d :: s2) = _
      rw [subMatch.eq_def]
      have ih2 : anySuffix (likeMatch (kw ++ ['%'])) s2
          = subMatch (kw.map likeFold) (s2.map likeFold) := ih
      simp [anySuffix, likeMatch_nowild_lead kw hw, ih2]

/-- **C7.** For every non-empty wildcard-free keyword, `SearchByKeyword`
returns exactly the joined items whose name contains the keyword as an
ASCII-case-insensitive substring (the case sensitivity SQLite's default
`LIKE` defines), in storage order; on the spec's example catalog,
`SearchByKeyword("shirt")` returns exactly the "Blue Shirt" and "Shirt"
rows in storage order, and `SearchByKeyword("zzz")` returns the empty
sequence, not an error. -/
theorem searchItemsByKeyword_spec (db : DB) (kw : String)
    (hk : kw ≠ "") (hw : noWildcards kw = true) :
    searchItemsByKeyword db kw
      = (joinRows db).filter (fun it => containsCI kw it.name) ∧
    searchItemsByKeyword exampleDB "shirt"
      = [⟨1, "Blue Shirt", "Fashion", "a.jpg"⟩, ⟨2, "Shirt", "Fashion", "b.jpg"⟩] ∧
    searchItemsByKeyword exampleDB "zzz" = [] := by
  refine ⟨?_, by decide, by decide⟩
  unfold searchItemsByKeyword
  apply List.filter_congr
  intro it _
  have hwchars : ∀ c ∈ kw.data, c ≠ '%' ∧ c ≠ '_' := by
    intro c hc
    have h2 := (List.all_eq_true.mp hw) c hc
    simp only [Bool.and_eq_true, Bool.not_eq_true', beq_eq_false_iff_ne] at h2
    exact h2
  have hdata : ("%" ++ kw ++ "%").data = '%' :: (kw.data ++ ['%']) := rfl
  rw [hdata, likeMatch_nowild kw.data hwchars it.name.data]
  rfl

theorem searchItemsByKeyword_spec_witness :
    (("shirt" : String) ≠ "" ∧ noWildcards "shirt" = true) ∧
    searchItemsByKeyword exampleDB "shirt"
      = (joinRows exampleDB).filter (fun it => containsCI "shirt" it.name) := by
  refine ⟨⟨by decide, by decide⟩, ?_⟩
  exact (searchItemsByKeyword_spec exampleDB "shirt" (by decide) (by decide)).1

theorem str_data_append (s t : String) : (s ++ t).data = s.data ++ t.data := rfl

theorem str_ne_of_data_ne (s t : String) (h : s.data ≠ t.data) : s ≠ t :=
  fun he => h (he ▸ rfl)

theorem str_empty_append (s : String) : "" ++ s = s := by
  cases s
  rfl

theorem isPrefixOf_self_append (l r : List Char) : l.isPrefixOf (l ++ r) = true := by
  induction l with
  | nil => simp [List.isPrefixOf]
  | cons a as ih => simp [List.isPrefixOf, ih]

theorem trimPref_append (pre t : String) : trimPref (pre ++ t) pre = t := by
  unfold trimPref
  have hpf : strStartsWith (pre ++ t) pre = true := by
    show pre.data.isPrefixOf (pre ++ t).data = true
    rw [str_data_append]
    exact isPrefixOf_self_append pre.data t.data
  rw [if_pos hpf]
  show String.mk ((pre ++ t).data.drop pre.data.length) = t
  rw [str_data_append, List.drop_left]

theorem hexDigit_ne_slash (n : Nat) : hexDigit n ≠ '/' := by
  unfold hexDigit
  split <;> decide

theorem bytesToHexChars_no_slash (l : List Nat) :
    ∀ c ∈ bytesToHexChars l, c ≠ '/' := by
  induction l with
  | nil =>
      intro c hc
      cases hc
  | cons b rest ih =>
      intro c hc
      rcases List.mem_cons.mp hc with rfl | hc2
      · exact hexDigit_ne_slash _
      · rcases List.mem_cons.mp hc2 with rfl | hc3
        · exact hexDigit_ne_slash _
        · exact ih c hc3

theorem bytesToHexChars_length (l : List Nat) :
    (bytesToHexChars l).length = 2 * l.length := by
  induction l with
  | nil => rfl
  | cons b rest ih =>
      simp [bytesToHexChars, ih]
      omega

theorem digestBytes_length (H : Words8) : (digestBytes H).length = 32 := by
  simp [digestBytes, wordBytes]

theorem hexjpg_data (H : Words8) :
    (hexOfDigest H ++ ".jpg").data
      = bytesToHexChars (digestBytes H) ++ ".jpg".data := rfl

theorem hexjpg_length (H : Words8) :
    (hexOfDigest H ++ ".jpg").data.length = 68 := by
  rw [hexjpg_data, List.length_append, bytesToHexChars_length, digestBytes_length]
  rfl

theorem hexjpg_no_slash (H : Words8) :
    ∀ c ∈ (hexOfDigest H ++ ".jpg").data, c ≠ '/' := by
  rw [hexjpg_data]
  intro c hc
  rcases List.mem_append.mp hc with hc1 | hc2
  · exact bytesToHexChars_no_slash _ c hc1
  · have hall : ∀ x ∈ ".jpg".data, x ≠ '/' := by decide
    exact hall c hc2

theorem hexjpg_ne_default (H : Words8) :
    hexOfDigest H ++ ".jpg" ≠ "default.jpg" := by
  apply str_ne_of_data_ne
  intro he
  have hl := hexjpg_length H
  rw [he] at hl
  exact absurd hl (by decide)

/-- Sixth helper for the path computation of the no-attachment `AddItem`
branch: splitting a '/'-free tail after a '/'-free lead segment. -/
theorem splitSlashAux_no_slash (cs : List Char) (h : ∀ c ∈ cs, c ≠ '/') :
    ∀ acc, splitSlashAux cs acc = [⟨acc.reverse ++ cs⟩] := by
  induction cs with
  | nil =>
      intro acc
      simp [splitSlashAux]
  | cons c rest ih =>
      intro acc
      have hc : c ≠ '/' := h c (List.mem_cons_self c rest)
      have h2 : ∀ x ∈ rest, x ≠ '/' := fun x hx => h x (List.mem_cons_of_mem c hx)
      rw [splitSlashAux, if_neg hc, ih h2 (c :: acc)]
      simp

theorem splitSlashAux_append_slash (pre : List Char) (hpre : ∀ c ∈ pre, c ≠ '/')
    (fd : List Char) :
    ∀ acc, splitSlashAux (pre ++ '/' :: fd) acc
      = ⟨acc.reverse ++ pre⟩ :: splitSlashAux fd [] := by
  induction pre with
  | nil =>
      intro acc
      rw [List.nil_append, splitSlashAux, if_pos rfl]
      simp
  | cons c pre2 ih =>
      intro acc
      have hc : c ≠ '/' := hpre c (List.mem_cons_self c pre2)
      have h2 : ∀ x ∈ pre2, x ≠ '/' := fun x hx => hpre x (List.mem_cons_of_mem c hx)
      rw [List.cons_append, splitSlashAux, if_neg hc, ih h2 (c :: acc)]
      simp

/-- `filepath.Join("images", f)` for a '/'-free, non-special file name is
plain concatenation with a separator. -/
theorem goJoin_images_noslash (f : String)
    (hns : ∀ c ∈ f.data, c ≠ '/')
    (hne : f.data ≠ []) (hnd : f.data ≠ ['.']) (hndd : f.data ≠ ['.', '.']) :
    goJoin "images" f = "images/" ++ f := by
  have hne2 : f ≠ "" := str_ne_of_data_ne f "" hne
  have hsne : ("images" ++ "/" ++ f : String) ≠ "" := by
    apply str_ne_of_data_ne
    show ('i' :: 'm' :: 'a' :: 'g' :: 'e' :: 's' :: '/' :: f.data) ≠ []
    simp
  have hroot : strStartsWith ("images" ++ "/" ++ f) "/" = false := by
    show (['/'] : List Char).isPrefixOf
      ('i' :: 'm' :: 'a' :: 'g' :: 'e' :: 's' :: '/' :: f.data) = false
    simp [List.isPrefixOf]
  have hsplit : splitOnSlash ("images" ++ "/" ++ f) = ["images", f] := by
    show splitSlashAux ("images".data ++ '/' :: f.data) [] = ["images", f]
    rw [splitSlashAux_append_slash "images".data (by decide) f.data []]
    rw [splitSlashAux_no_slash f.data hns []]
    rfl
  have hfd : ¬(f = ".") := str_ne_of_data_ne f "." hnd
  have hfdd : ¬(f = "..") := str_ne_of_data_ne f ".." hndd
  have hclean : cleanSegs false [] ["images", f] = ["images", f] := by
    have s1 : cleanSegs false [] ["images", f] = cleanSegs false ["images"] [f] := by
      rw [cleanSegs.eq_def]
      simp only [if_neg (by decide : ¬(("images" : String) = "" ∨ ("images" : String) = ".")),
        if_neg (by decide : ¬(("images" : String) = ".."))]
    have s2 : cleanSegs false ["images"] [f] = cleanSegs false [f, "images"] [] := by
      rw [cleanSegs.eq_def]
      have hcond : ¬(f = "" ∨ f = ".") := by
        rintro (h | h)
        · exact hne2 h
        · exact hfd h
      simp only [if_neg hcond, if_neg hfdd]
    have s3 : cleanSegs false [f, "images"] [] = ["images", f] := rfl
    rw [s1, s2, s3]
  unfold goJoin
  rw [if_neg (by decide : ¬("images" : String) = ""), if_neg hne2]
  unfold goClean
  rw [if_neg hsne]
  simp only [hroot, hsplit, hclean]
  simp [intercalateSlash, str_empty_append]

theorem insertItem_items_map (db : DB) (n c i : String) :
    (insertItem db n c i false).db.items.map (fun r => r.imageName)
      = db.items.map (fun r => r.imageName) ++ [i] := by
  cases h : lookupCategory db c with
  | some cid =>
      rw [insertItem_reuse db n c i cid h]
      simp [addItemRow]
  | none =>
      rw [insertItem_new db n c i h]
      simp [addItemRow, addCategoryRow]

/-- **C10.** A submission with no attached image bytes reads the default
image's bytes and stores them content-addressed: the inserted item's image
field is the hex SHA-256 digest of the default image's content with a
".jpg" suffix (the stored path with its leading "images/" trimmed), not the
literal sentinel name "default.jpg". -/
theorem addItem_noImage_contentAddressed (fs : FS) (db : DB) (n c : String)
    (dbytes : List Nat)
    (h1 : n ≠ "") (h2 : c ≠ "")
    (hd : readFile fs (goJoin "images" "default.jpg") = some dbytes) :
    (addItem fs db "images" n c []).err = none ∧
    (addItem fs db "images" n c []).db.items.map (fun r => r.imageName)
      = db.items.map (fun r => r.imageName)
        ++ [hexOfDigest (sha256 dbytes) ++ ".jpg"] ∧
    hexOfDigest (sha256 dbytes) ++ ".jpg" ≠ "default.jpg" := by
  have hjoin : goJoin "images" (hexOfDigest (sha256 dbytes) ++ ".jpg")
      = "images/" ++ (hexOfDigest (sha256 dbytes) ++ ".jpg") := by
    apply goJoin_images_noslash
    · exact hexjpg_no_slash (sha256 dbytes)
    · intro he
      have := hexjpg_length (sha256 dbytes)
      rw [he] at this
      exact absurd this (by decide)
    · intro he
      have := hexjpg_length (sha256 dbytes)
      rw [he] at this
      exact absurd this (by decide)
    · intro he
      have := hexjpg_length (sha256 dbytes)
      rw [he] at this
      exact absurd this (by decide)
  have hfst : (storeImage fs "images" dbytes).1
      = "images/" ++ (hexOfDigest (sha256 dbytes) ++ ".jpg") :=
    (storeImage_fst fs "images" dbytes).trans hjoin
  have htrim : trimPref (storeImage fs "images" dbytes).1 "images/"
      = hexOfDigest (sha256 dbytes) ++ ".jpg" := by
    rw [hfst, trimPref_append]
  have hstep : ∀ S : String × FS, storeImage fs "images" dbytes = S →
      addItem fs db "images" n c []
        = ⟨S.2, (insertItem db n c (trimPref S.1 "images/") false).db, none⟩ := by
    rintro ⟨S1, S2⟩ hS
    simp only [addItem, if_neg h1, if_neg h2,
      if_neg (by decide : ¬(([] : List Nat).length > 0)), hd, hS,
      insertItem_err_none]
  have hrun := hstep (storeImage fs "images" dbytes) rfl
  refine ⟨?_, ?_, hexjpg_ne_default (sha256 dbytes)⟩
  · rw [hrun]
  · rw [hrun]
    show (insertItem db n c (trimPref (storeImage fs "images" dbytes).1 "images/")
        false).db.items.map (fun r => r.imageName) = _
    rw [htrim, insertItem_items_map]

theorem addItem_noImage_contentAddressed_witness :
    (("Bike" : String) ≠ "" ∧ ("Sports" : String) ≠ "" ∧
      readFile [("images/default.jpg", [255, 216])] (goJoin "images" "default.jpg")
        = some [255, 216]) ∧
    (addItem [("images/default.jpg", [255, 216])] emptyDB "images"
        "Bike" "Sports" []).err = none ∧
    hexOfDigest (sha256 [255, 216]) ++ ".jpg" ≠ "default.jpg" := by
  refine ⟨⟨by decide, by decide, by decide⟩, ?_, ?_⟩
  · exact (addItem_noImage_contentAddressed [("images/default.jpg", [255, 216])]
      emptyDB "Bike" "Sports" [255, 216] (by decide) (by decide) (by decide)).1
  · exact (addItem_noImage_contentAddressed [("images/default.jpg", [255, 216])]
      emptyDB "Bike" "Sports" [255, 216] (by decide) (by decide) (by decide)).2.2

theorem insert_category_uniqueness_witness :
    ((emptyDB.categories.map (fun r => r.name)).Nodup ∧
      (runInserts emptyDB
        [("Bike", "Sports", "a.jpg"), ("Ball", "Sports", "b.jpg")]).categories.map
          (fun r => r.name) = ["Sports"]) ∧
    ((insertItem emptyDB "Bike" "Sports" "a.jpg" false).db.categories.map
        (fun r => r.name)).Nodup := by
  refine ⟨⟨by decide, by decide⟩, ?_⟩
  exact (insert_category_uniqueness emptyDB "Bike" "Sports" "a.jpg" (by decide)).1

end Mercari
